import Mathlib

/-!
# Verification of the pingpong-p2p chat node (`src/main.rs`)

A shallow embedding of the program's pure logic:

* the prost-derived protobuf wire codec of `ChatMessage` (two `string`
  fields, tags 1 and 2);
* the `FloodsubEvent` / `MdnsEvent` handlers of `MyBehaviour`
  (`inject_event`), with the floodsub partial view (`Floodsub.target_peers`,
  a hash set of peer ids) modelled as a duplicate-free `List Nat`;
* one iteration (`tick`) of the `future::poll_fn` body in `main`, driven by
  a script of the readiness results the two inner loops would observe, and
  the multi-tick closure `runLoop` threading the `listening` flag.

Rust `String`s are modelled by their UTF-8 byte sequences (`List Nat`).
The decoder carries prost's error paths (the prost 0.6.x line these
libp2p-0.18-era crates pin): varints longer than ten bytes or overflowing a
`u64` are rejected, field keys above `u32::MAX` are rejected, wire type
values without a `WireType` variant are rejected, and decoded string fields
are re-validated as UTF-8 (`String::from_utf8`), so the model's decode
failures coincide with the program's. `PeerId`s, `Multiaddr`s and opaque
swarm events are modelled as `Nat`.
-/

/-- UTF-8 bytes of a Rust `String`, or raw wire bytes. -/
abbrev Bytes := List Nat

/-! ## LEB128 varints (prost `encode_varint` / `decode_varint`) -/

/-- Encoding worker, structurally recursive on a fuel argument so that it
reduces in the kernel; ten bytes of fuel cover every `u64` (prost encodes a
`u64`, whose longest varint is ten bytes), so the base case is unreachable
for the values the program produces. -/
def varintEncodeAux : Nat → Nat → List Nat
  | 0, n => [n]
  | fuel + 1, n => if n < 128 then [n] else (n % 128 + 128) :: varintEncodeAux fuel (n / 128)

/-- Little-endian base-128 varint encoding, low 7 bits first, continuation
bit `0x80` on every byte but the last (prost `encode_varint`); exact for
every `n < 2 ^ 70`, hence for every `u64`. -/
def varintEncode (n : Nat) : List Nat :=
  varintEncodeAux 10 n

/-- Varint decoding worker: `acc`/`shift` accumulate the low groups already
read; the fuel starts at 10, mirroring prost's rejection of varints longer
than ten bytes (the longest encoding of a `u64`). A terminating tenth byte
(`shift = 63`) of value two or more would overflow a `u64`, and prost
(`decode_varint_slow`: `count == 9 && byte >= 0x02`) rejects it. Returns
the value and the unconsumed tail. -/
def varintDecodeAux : Nat → Nat → Nat → List Nat → Option (Nat × List Nat)
  | 0, _, _, _ => none
  | _ + 1, _, _, [] => none
  | fuel + 1, acc, shift, b :: rest =>
    if b < 128 then
      if shift = 63 ∧ 2 ≤ b then none
      else some (acc + b * 2 ^ shift, rest)
    else varintDecodeAux fuel (acc + (b - 128) * 2 ^ shift) (shift + 7) rest

/-- prost `decode_varint`: at most ten bytes, value assembled base 128. -/
def varintDecode (bs : List Nat) : Option (Nat × List Nat) :=
  varintDecodeAux 10 0 0 bs

/-! ## The `ChatMessage` wire codec (prost derive) -/

/-- `struct ChatMessage { #[prost(string, tag = 1)] from, #[prost(string,
tag = 2)] content }`; both fields are modelled as their UTF-8 bytes. -/
structure ChatMessage where
  from_ : Bytes
  content : Bytes
deriving DecidableEq, Repr

/-- One length-delimited protobuf field: varint key `tag * 8 + 2` (wire type
2), varint byte length, then the bytes (prost `string::encode`). -/
def encodeField (tag : Nat) (s : Bytes) : List Nat :=
  varintEncode (tag * 8 + 2) ++ varintEncode s.length ++ s

/-- prost-generated `ChatMessage::encode_raw`: each string field is emitted
only when it differs from its default `""`, field 1 then field 2. -/
def ChatMessage.encode (m : ChatMessage) : List Nat :=
  (if m.from_ = [] then [] else encodeField 1 m.from_) ++
    (if m.content = [] then [] else encodeField 2 m.content)

/-- Read a length-delimited value: varint length, then that many bytes;
fails when fewer bytes remain (prost `decode_length_delimited`). -/
def decodeLenDelim (bs : List Nat) : Option (List Nat × List Nat) :=
  match varintDecode bs with
  | none => none
  | some (len, rest) =>
    if len ≤ rest.length then some (rest.take len, rest.drop len) else none

/-- prost `skip_field` for an unknown tag, by wire type: 0 varint, 1 eight
bytes, 2 length-delimited, 5 four bytes. prost 0.6's `WireType` has no
other variants (group support arrived only in prost 0.9), so every other
wire type value is already a `decode_key` error. -/
def skipField (wireType : Nat) (bs : List Nat) : Option (List Nat) :=
  match wireType with
  | 0 => (varintDecode bs).map Prod.snd
  | 1 => if 8 ≤ bs.length then some (bs.drop 8) else none
  | 2 => (decodeLenDelim bs).map Prod.snd
  | 5 => if 4 ≤ bs.length then some (bs.drop 4) else none
  | _ => none

/-- Is `b` a UTF-8 continuation byte (`0x80..=0xBF`)? -/
def isCont (b : Nat) : Bool := 128 ≤ b && b ≤ 191

/-- Worker for `utf8Valid`, structurally recursive on a fuel argument so
that it reduces in the kernel; each step consumes at least one byte, so
fuel `= length` never runs out. -/
def utf8ValidAux : Nat → List Nat → Bool
  | _, [] => true
  | 0, _ :: _ => false
  | fuel + 1, b :: rest =>
    if b ≤ 127 then utf8ValidAux fuel rest
    else if 194 ≤ b && b ≤ 223 then
      match rest with
      | c1 :: rest1 => isCont c1 && utf8ValidAux fuel rest1
      | [] => false
    else if b = 224 then
      match rest with
      | c1 :: c2 :: rest2 => (160 ≤ c1 && c1 ≤ 191) && isCont c2 && utf8ValidAux fuel rest2
      | _ => false
    else if (225 ≤ b && b ≤ 236) || (238 ≤ b && b ≤ 239) then
      match rest with
      | c1 :: c2 :: rest2 => isCont c1 && isCont c2 && utf8ValidAux fuel rest2
      | _ => false
    else if b = 237 then
      match rest with
      | c1 :: c2 :: rest2 => (128 ≤ c1 && c1 ≤ 159) && isCont c2 && utf8ValidAux fuel rest2
      | _ => false
    else if b = 240 then
      match rest with
      | c1 :: c2 :: c3 :: rest3 =>
        (144 ≤ c1 && c1 ≤ 191) && isCont c2 && isCont c3 && utf8ValidAux fuel rest3
      | _ => false
    else if 241 ≤ b && b ≤ 243 then
      match rest with
      | c1 :: c2 :: c3 :: rest3 => isCont c1 && isCont c2 && isCont c3 && utf8ValidAux fuel rest3
      | _ => false
    else if b = 244 then
      match rest with
      | c1 :: c2 :: c3 :: rest3 =>
        (128 ≤ c1 && c1 ≤ 143) && isCont c2 && isCont c3 && utf8ValidAux fuel rest3
      | _ => false
    else false

/-- `core::str::from_utf8`'s acceptance predicate — what prost's
`String::from_utf8` re-validation of a decoded string field checks: ASCII
single bytes; two-byte sequences `C2..DF`; three-byte sequences with the
`E0` (no overlongs) and `ED` (no surrogates) restricted ranges; four-byte
sequences with the `F0` and `F4` restricted ranges capping at `U+10FFFF`;
everything else rejected. -/
def utf8Valid (bs : List Nat) : Bool :=
  utf8ValidAux bs.length bs

/-- prost-generated `ChatMessage::merge`: repeatedly read a field key
(`decode_key` rejects keys above `u32::MAX` and tag 0), dispatch on its tag
(1 → `from`, 2 → `content`, both demanding wire type 2 and re-validating
the bytes as UTF-8; other tags are skipped) until the buffer is empty. The
fuel bounds the loop; each iteration consumes at least one byte, so fuel
`= buffer length` never runs out. -/
def decodeLoop : Nat → ChatMessage → List Nat → Option ChatMessage
  | _, m, [] => some m
  | 0, _, _ => none
  | fuel + 1, m, bs =>
    match varintDecode bs with
    | none => none
    | some (key, rest) =>
      if 2 ^ 32 ≤ key then none
      else
        let tag := key / 8
        let wt := key % 8
        if tag = 1 then
          if wt = 2 then
            match decodeLenDelim rest with
            | some (s, rest2) =>
              if utf8Valid s then decodeLoop fuel { m with from_ := s } rest2 else none
            | none => none
          else none
        else if tag = 2 then
          if wt = 2 then
            match decodeLenDelim rest with
            | some (s, rest2) =>
              if utf8Valid s then decodeLoop fuel { m with content := s } rest2 else none
            | none => none
          else none
        else if tag = 0 then none
        else
          match skipField wt rest with
          | some rest2 => decodeLoop fuel m rest2
          | none => none

/-- prost-generated `ChatMessage::decode`: merge into the default message
(both fields `""`). -/
def ChatMessage.decode (bs : List Nat) : Option ChatMessage :=
  decodeLoop bs.length ⟨[], []⟩ bs

/-! ## The mDNS handler and the floodsub partial view -/

/-- `MdnsEvent`: `Discovered` / `Expired`, each carrying a list of
`(PeerId, Multiaddr)` pairs; peers and addresses are modelled as `Nat`. -/
inductive MdnsEv where
  | discovered (l : List (Nat × Nat))
  | expired (l : List (Nat × Nat))
deriving DecidableEq

/-- `Floodsub::add_node_to_partial_view`: the flood-forwarding membership
view (`Floodsub.target_peers`) is a hash set of peer ids, modelled as a
duplicate-free list; insertion is idempotent and stores nothing besides the
peer id. -/
def addToView (view : List Nat) (p : Nat) : List Nat :=
  if p ∈ view then view else view ++ [p]

/-- `Floodsub::remove_node_from_partial_view`: set removal of the peer id. -/
def removeFromView (view : List Nat) (p : Nat) : List Nat :=
  view.filter (fun q => q ≠ p)

/-- `NetworkBehaviourEventProcess<MdnsEvent>::inject_event`: on
`Discovered`, every listed peer is added to the partial view (the paired
address is bound as `_` and dropped); on `Expired`, a listed peer is removed
only when `self.mdns.has_node(&peer)` is false, where `mdnsNodes` is the set
of peers the mdns behaviour still has on record while the event is
processed (the loop does not mutate it). -/
def handleMdns (mdnsNodes : List Nat) (view : List Nat) : MdnsEv → List Nat
  | .discovered l => l.foldl (fun v pa => addToView v pa.1) view
  | .expired l =>
    l.foldl (fun v pa => if pa.1 ∈ mdnsNodes then v else removeFromView v pa.1) view

/-! ## The floodsub handler -/

/-- `FloodsubEvent`; the `Message` variant's `FloodsubMessage` carries
`source`, `sequence_number`, `data` and `topics`, of which the handler reads
only `data`. -/
inductive FloodsubEv where
  | message (source : Nat) (seqno : Bytes) (data : Bytes) (topics : List Bytes)
  | subscribed (peer : Nat) (topic : Bytes)
  | unsubscribed (peer : Nat) (topic : Bytes)
deriving DecidableEq

/-- `impl fmt::Display for ChatMessage`:
`write!(f, "{}: {}", self.from, self.content)` — the alias bytes, a colon
`0x3A`, a space `0x20`, then the content bytes. -/
def ChatMessage.display (m : ChatMessage) : Bytes :=
  m.from_ ++ [58, 32] ++ m.content

/-- `NetworkBehaviourEventProcess<FloodsubEvent>::inject_event`: on a
`Message` whose payload decodes, print the single line `"<< {}"`
(`0x3C 0x3C 0x20` followed by the `Display` rendering); on decode failure,
or on a `Subscribed` / `Unsubscribed` event, print nothing. The handler
mutates no behaviour state and returns no error, so the printed lines are
its entire observable effect. -/
def handleFloodsub : FloodsubEv → List Bytes
  | .message _ _ data _ =>
    match ChatMessage.decode data with
    | some m => [[60, 60, 32] ++ m.display]
    | none => []
  | _ => []

/-! ## The event loop (`future::poll_fn` in `main`) -/

/-- `args.next().unwrap_or_else(|| String::from("anon"))`: the alias is the
first CLI argument, or the UTF-8 bytes of `"anon"` when absent. -/
def aliasOf : Option Bytes → Bytes
  | none => [97, 110, 111, 110]
  | some a => a

/-- `floodsub::Topic::new("chat")`, as UTF-8 bytes. -/
def chatTopic : Bytes := [99, 104, 97, 116]

/-- The externally visible steps of one poll iteration:
`swarm.floodsub.publish(topic, bytes)` for a stdin line,
`println!("{:?}", event)` for a ready swarm event (opaque, modelled as
`Nat`), and `println!("Listening on {:?}", addr)`. -/
inductive Act where
  | publish (topic : Bytes) (msg : ChatMessage)
  | dispatchEvent (e : Nat)
  | printListening (addr : Nat)
deriving DecidableEq

/-- Is this step a floodsub publish? -/
def Act.isPublish : Act → Bool
  | .publish _ _ => true
  | _ => false

/-- Is this step a listener-address print? -/
def Act.isPrintListening : Act → Bool
  | .printListening _ => true
  | _ => false

/-- How one poll iteration ends: `panic!("Stdin closed")`,
`Poll::Ready(Ok(()))` (swarm stream finished), or `Poll::Pending`. -/
inductive Outcome where
  | panicked
  | finished
  | pending
deriving DecidableEq

/-- The readiness script one poll iteration observes: the stdin lines whose
polls return `Ready(Some(line))` before the stream reports `Pending`
(`stdinClosed = true` when that next poll is `Ready(None)` instead), the
swarm events whose polls return `Ready(Some(event))` before the swarm
reports `Pending` (`swarmDone = true` when it reports `Ready(None)`
instead), and the addresses `Swarm::listeners` currently yields. Stdin read
errors (the `?` on `try_poll_next_unpin`) are not modelled. -/
structure TickInput where
  stdinLines : List Bytes
  stdinClosed : Bool
  swarmEvents : List Nat
  swarmDone : Bool
  listeners : List Nat
deriving DecidableEq

/-- One iteration of the `poll_fn` body. The first loop drains stdin,
turning each line into `ChatMessage { from: alias, content: line }`
published on the chat topic, and panics on `Ready(None)`; the second loop
prints each ready swarm event, returns on `Ready(None)`, and on `Pending`
prints the current listener addresses when `listening` is still false
(setting it to true for each printed address) before the closure returns
`Pending`. Returns the action trace, the outcome, and the new `listening`
flag. -/
def tick (aliasBytes : Bytes) (inp : TickInput) (listening : Bool) :
    List Act × Outcome × Bool :=
  let pubs := inp.stdinLines.map fun l => Act.publish chatTopic ⟨aliasBytes, l⟩
  if inp.stdinClosed then (pubs, .panicked, listening)
  else
    let evs := inp.swarmEvents.map Act.dispatchEvent
    if inp.swarmDone then (pubs ++ evs, .finished, listening)
    else if listening then (pubs ++ evs, .pending, listening)
    else
      (pubs ++ evs ++ inp.listeners.map Act.printListening, .pending,
        !inp.listeners.isEmpty)

/-- Successive poll iterations threading the `listening` flag (initially
false in `main`); after a panic or a `Ready` return the closure is never
polled again, so the remaining inputs are unreached. Returns each reached
iteration's action trace. -/
def runLoop (aliasBytes : Bytes) : List TickInput → Bool → List (List Act)
  | [], _ => []
  | inp :: rest, listening =>
    match tick aliasBytes inp listening with
    | (tr, .pending, flag) => tr :: runLoop aliasBytes rest flag
    | (tr, _, _) => [tr]

/-- The `printListening` actions of a trace. -/
def printsOf (tr : List Act) : List Act :=
  tr.filter Act.isPrintListening

/-- The messages published by a trace, in order. -/
def publishedMsgs (tr : List Act) : List ChatMessage :=
  tr.filterMap fun a => match a with
    | .publish _ m => some m
    | _ => none

/-- `usize::MAX` on the 64-bit targets the program is built for. -/
def usizeMax : Nat := 2 ^ 64 - 1

/-- prost `Message::encode` as called in the publish path: it compares
`encoded_len()` with the buffer's `remaining_mut()` and returns an
`EncodeError` — on which the `expect("failed to encode msg")` would panic —
exactly when the message does not fit; a fresh `Vec::new()` reports
`usize::MAX - len() = usizeMax` bytes remaining. -/
def ChatMessage.encodeChecked (m : ChatMessage) (remaining : Nat) : Option (List Nat) :=
  if remaining < m.encode.length then none else some m.encode

/-! ## Varint and codec lemmas -/

/-- Values below 128 encode as a single byte, whatever the fuel. -/
lemma varintEncodeAux_lt (efuel n : Nat) (h : n < 128) : varintEncodeAux (efuel + 1) n = [n] := by
  simp [varintEncodeAux, h]

/-- A varint encoding is never empty. -/
lemma varintEncodeAux_ne_nil (fuel n : Nat) : varintEncodeAux fuel n ≠ [] := by
  cases fuel with
  | zero => simp [varintEncodeAux]
  | succ k => by_cases h : n < 128 <;> simp [varintEncodeAux, h]

/-- A varint encoding takes at most one byte per unit of fuel, plus one. -/
lemma varintEncodeAux_length_le (fuel : Nat) : ∀ n, (varintEncodeAux fuel n).length ≤ fuel + 1 := by
  induction fuel with
  | zero => intro n; simp [varintEncodeAux]
  | succ k ih =>
    intro n
    by_cases h : n < 128
    · simp [varintEncodeAux, h]
    · simp only [varintEncodeAux, if_neg h, List.length_cons]
      have := ih (n / 128)
      omega

/-- Decoding after encoding, generalized over the decoder's accumulator and
the two fuels: when the value still fits the remaining `u64` bit budget at
the current shift (so prost's tenth-byte overflow check cannot fire), the
decoder recovers the encoded value shifted into place and leaves the
trailing bytes untouched. -/
lemma varintDecodeAux_encodeAux :
    ∀ efuel dfuel n acc shift rest, n < 128 ^ (efuel + 1) → efuel + 1 ≤ dfuel →
      n < 2 ^ (64 - shift) →
      varintDecodeAux dfuel acc shift (varintEncodeAux (efuel + 1) n ++ rest) =
        some (acc + n * 2 ^ shift, rest) := by
  intro efuel
  induction efuel with
  | zero =>
    intro dfuel n acc shift rest hn hd hov
    obtain ⟨d, rfl⟩ : ∃ d, dfuel = d + 1 := ⟨dfuel - 1, by omega⟩
    rw [varintEncodeAux_lt 0 n (by simpa using hn)]
    have hcond : ¬(shift = 63 ∧ 2 ≤ n) := by
      rintro ⟨rfl, h2⟩
      norm_num at hov
      omega
    simp [varintDecodeAux, show n < 128 by simpa using hn, hcond]
  | succ e ih =>
    intro dfuel n acc shift rest hn hd hov
    obtain ⟨d, rfl⟩ : ∃ d, dfuel = d + 1 := ⟨dfuel - 1, by omega⟩
    by_cases h : n < 128
    · rw [varintEncodeAux_lt _ n h]
      have hcond : ¬(shift = 63 ∧ 2 ≤ n) := by
        rintro ⟨rfl, h2⟩
        norm_num at hov
        omega
      simp [varintDecodeAux, h, hcond]
    · rw [show varintEncodeAux (e + 1 + 1) n
          = (n % 128 + 128) :: varintEncodeAux (e + 1) (n / 128) by
        simp [varintEncodeAux, h]]
      have hdiv : n / 128 < 128 ^ (e + 1) := by
        rw [Nat.div_lt_iff_lt_mul (by omega)]
        calc n < 128 ^ (e + 1 + 1) := hn
          _ = 128 ^ (e + 1) * 128 := by ring
      have hshift : shift + 7 ≤ 63 := by
        by_contra hcon
        have hA : (2 : Nat) ^ (64 - shift) ≤ 128 := by
          calc (2 : Nat) ^ (64 - shift) ≤ 2 ^ 7 := Nat.pow_le_pow_right (by omega) (by omega)
            _ = 128 := by norm_num
        omega
      have hov2 : n / 128 < 2 ^ (64 - (shift + 7)) := by
        rw [show 64 - (shift + 7) = 64 - shift - 7 by omega]
        rw [Nat.div_lt_iff_lt_mul (by omega : 0 < 128)]
        calc n < 2 ^ (64 - shift) := hov
          _ = 2 ^ (64 - shift - 7) * 128 := by
            rw [show (128 : Nat) = 2 ^ 7 by norm_num, ← pow_add]
            congr 1
            omega
      have hstep := ih d (n / 128) (acc + (n % 128) * 2 ^ shift) (shift + 7) rest hdiv
        (by omega) hov2
      rw [List.cons_append]
      rw [show varintDecodeAux (d + 1) acc shift
            ((n % 128 + 128) :: (varintEncodeAux (e + 1) (n / 128) ++ rest))
          = varintDecodeAux d (acc + (n % 128 + 128 - 128) * 2 ^ shift) (shift + 7)
            (varintEncodeAux (e + 1) (n / 128) ++ rest) by
        simp [varintDecodeAux]]
      rw [show n % 128 + 128 - 128 = n % 128 by omega]
      rw [hstep]
      have harith : acc + n % 128 * 2 ^ shift + n / 128 * 2 ^ (shift + 7)
          = acc + n * 2 ^ shift := by
        have hmd : n % 128 + 128 * (n / 128) = n := Nat.mod_add_div n 128
        calc acc + n % 128 * 2 ^ shift + n / 128 * 2 ^ (shift + 7)
            = acc + (n % 128 + 128 * (n / 128)) * 2 ^ shift := by ring
          _ = acc + n * 2 ^ shift := by rw [hmd]
      rw [harith]

/-- Varint round trip for every value a `u64` (hence a Rust `usize` length)
can take. -/
lemma varintDecode_encode (n : Nat) (h : n < 2 ^ 64) (rest : List Nat) :
    varintDecode (varintEncode n ++ rest) = some (n, rest) := by
  have h10 : n < 128 ^ 10 := lt_of_lt_of_le h (by norm_num)
  have := varintDecodeAux_encodeAux 9 10 n 0 0 rest h10 (by omega) (by simpa using h)
  simpa [varintDecode, varintEncode] using this

/-- Reading back a length-delimited value recovers the bytes and the tail. -/
lemma decodeLenDelim_encode (s tail : Bytes) (h : s.length < 2 ^ 64) :
    decodeLenDelim (varintEncode s.length ++ (s ++ tail)) = some (s, tail) := by
  rw [decodeLenDelim, varintDecode_encode s.length h (s ++ tail)]
  simp [List.take_left, List.drop_left]

/-- An empty buffer decodes to the message accumulated so far. -/
lemma decodeLoop_nil (fuel : Nat) (m : ChatMessage) : decodeLoop fuel m [] = some m := by
  cases fuel <;> rfl

/-- Consuming an encoded field 1 whose bytes pass the UTF-8 check sets
`from` and continues on the tail. -/
lemma decodeLoop_field1 (fuel : Nat) (m : ChatMessage) (f rest : Bytes)
    (hf : f.length < 2 ^ 64) (hf8 : utf8Valid f = true) :
    decodeLoop (fuel + 1) m (encodeField 1 f ++ rest) =
      decodeLoop fuel { m with from_ := f } rest := by
  have hkey : varintEncode (1 * 8 + 2) = [10] := rfl
  rw [encodeField, hkey, List.append_assoc, List.singleton_append, List.cons_append]
  have hred : decodeLoop (fuel + 1) m (10 :: (varintEncode f.length ++ (f ++ rest))) =
      (match decodeLenDelim (varintEncode f.length ++ (f ++ rest)) with
       | some (s, rest2) =>
         if utf8Valid s then decodeLoop fuel { m with from_ := s } rest2 else none
       | none => none) := rfl
  rw [hred, decodeLenDelim_encode f rest hf]
  simp [hf8]

/-- Consuming an encoded field 2 whose bytes pass the UTF-8 check sets
`content` and continues on the tail. -/
lemma decodeLoop_field2 (fuel : Nat) (m : ChatMessage) (c rest : Bytes)
    (hc : c.length < 2 ^ 64) (hc8 : utf8Valid c = true) :
    decodeLoop (fuel + 1) m (encodeField 2 c ++ rest) =
      decodeLoop fuel { m with content := c } rest := by
  have hkey : varintEncode (2 * 8 + 2) = [18] := rfl
  rw [encodeField, hkey, List.append_assoc, List.singleton_append, List.cons_append]
  have hred : decodeLoop (fuel + 1) m (18 :: (varintEncode c.length ++ (c ++ rest))) =
      (match decodeLenDelim (varintEncode c.length ++ (c ++ rest)) with
       | some (s, rest2) =>
         if utf8Valid s then decodeLoop fuel { m with content := s } rest2 else none
       | none => none) := rfl
  rw [hred, decodeLenDelim_encode c rest hc]
  simp [hc8]

/-- An encoded field is never empty (its key byte is always there). -/
lemma encodeField_length_pos (tag : Nat) (s : Bytes) : 0 < (encodeField tag s).length := by
  have h1 : 0 < (varintEncode (tag * 8 + 2)).length :=
    List.length_pos.mpr (varintEncodeAux_ne_nil 10 (tag * 8 + 2))
  rw [encodeField]
  simp [List.length_append]
  omega

/-- C2: for every alias and content a Rust `String` can hold — its bytes
are valid UTF-8 (which covers the empty string and all non-ASCII text) and
its length is below `2 ^ 64` — building the `ChatMessage`, encoding it with
the length-prefixed tag-based wire encoding and decoding the bytes succeeds
and returns the message field for field. -/
theorem chatMessage_roundtrip (f c : Bytes) (hf : f.length < 2 ^ 64) (hc : c.length < 2 ^ 64)
    (hf8 : utf8Valid f = true) (hc8 : utf8Valid c = true) :
    ChatMessage.decode (ChatMessage.encode ⟨f, c⟩) = some ⟨f, c⟩ := by
  rw [ChatMessage.decode]
  by_cases hfe : f = [] <;> by_cases hce : c = []
  · subst hfe; subst hce
    rw [show ChatMessage.encode ⟨[], []⟩ = [] from rfl]
    exact decodeLoop_nil 0 _
  · subst hfe
    have henc : ChatMessage.encode ⟨[], c⟩ = encodeField 2 c := by
      simp [ChatMessage.encode, hce]
    obtain ⟨k, hk⟩ : ∃ k, (encodeField 2 c).length = k + 1 :=
      ⟨(encodeField 2 c).length - 1, by have := encodeField_length_pos 2 c; omega⟩
    rw [henc, hk]
    rw [show encodeField 2 c = encodeField 2 c ++ [] from (List.append_nil _).symm]
    rw [decodeLoop_field2 k ⟨[], []⟩ c [] hc hc8]
    exact decodeLoop_nil k _
  · subst hce
    have henc : ChatMessage.encode ⟨f, []⟩ = encodeField 1 f := by
      simp [ChatMessage.encode, hfe]
    obtain ⟨k, hk⟩ : ∃ k, (encodeField 1 f).length = k + 1 :=
      ⟨(encodeField 1 f).length - 1, by have := encodeField_length_pos 1 f; omega⟩
    rw [henc, hk]
    rw [show encodeField 1 f = encodeField 1 f ++ [] from (List.append_nil _).symm]
    rw [decodeLoop_field1 k ⟨[], []⟩ f [] hf hf8]
    exact decodeLoop_nil k _
  · have henc : ChatMessage.encode ⟨f, c⟩ = encodeField 1 f ++ encodeField 2 c := by
      simp [ChatMessage.encode, hfe, hce]
    obtain ⟨k, hk⟩ : ∃ k, (encodeField 1 f ++ encodeField 2 c).length = k + 1 :=
      ⟨(encodeField 1 f ++ encodeField 2 c).length - 1, by
        have := encodeField_length_pos 1 f
        simp [List.length_append]
        omega⟩
    rw [henc, hk, decodeLoop_field1 k ⟨[], []⟩ f (encodeField 2 c) hf hf8]
    obtain ⟨k2, hk2⟩ : ∃ k2, k = k2 + 1 := by
      have h1 := encodeField_length_pos 1 f
      have h2 := encodeField_length_pos 2 c
      rw [List.length_append] at hk
      exact ⟨k - 1, by omega⟩
    rw [hk2]
    rw [show encodeField 2 c = encodeField 2 c ++ [] from (List.append_nil _).symm]
    rw [decodeLoop_field2 k2 _ c [] hc hc8]
    exact decodeLoop_nil k2 _

/-- Witness for `chatMessage_roundtrip`: the non-ASCII alias `"€"` (valid
UTF-8 bytes `e2 82 ac`) and the empty content round-trip concretely. -/
theorem chatMessage_roundtrip_witness :
    ([226, 130, 172] : Bytes).length < 2 ^ 64 ∧ ([] : Bytes).length < 2 ^ 64 ∧
      utf8Valid [226, 130, 172] = true ∧ utf8Valid [] = true ∧
      ChatMessage.decode (ChatMessage.encode ⟨[226, 130, 172], []⟩) =
        some ⟨[226, 130, 172], []⟩ :=
  ⟨by decide, by decide, by decide, by decide,
    chatMessage_roundtrip [226, 130, 172] [] (by decide) (by decide) (by decide) (by decide)⟩

/-! ## Discovery events and the membership view (C1, C3) -/

/-- C1: processing an `Expired` event for peer `p` leaves the
flood-forwarding membership view unchanged when the mdns service still has
`p` on record at processing time, and removes `p` from the view exactly
when it does not — afterwards `p` is gone from the view in that case. -/
theorem expired_removal_iff (mdnsNodes view : List Nat) (p a : Nat) :
    handleMdns mdnsNodes view (MdnsEv.expired [(p, a)]) =
      (if p ∈ mdnsNodes then view else removeFromView view p) ∧
    p ∉ removeFromView view p := by
  constructor
  · simp [handleMdns]
  · simp [removeFromView]

/-- Counterexample to C3 as stated: the handler discards the reported
addresses. Processing `Discovered` for the already-known peer `5` yields the
bare peer set `[5]` whether the event reports address `1` or address `2`:
the membership view records no addresses at all, so it cannot contain an
entry holding the union of previously known and newly reported addresses. -/
theorem discovered_addresses_discarded_cex :
    handleMdns [] [5] (MdnsEv.discovered [(5, 1)]) = [5] ∧
    handleMdns [] [5] (MdnsEv.discovered [(5, 2)]) = [5] := by decide

/-- C3 (amended): processing a `Discovered` event for a peer already in the
membership view leaves the view unchanged — in particular it creates no
duplicate entry and the occurrence count of the peer is unaffected; the
reported address is discarded, since the view stores peer ids only. -/
theorem discovered_known_peer_idempotent (mdnsNodes view : List Nat) (p a : Nat)
    (h : p ∈ view) :
    handleMdns mdnsNodes view (MdnsEv.discovered [(p, a)]) = view ∧
    (handleMdns mdnsNodes view (MdnsEv.discovered [(p, a)])).count p = view.count p := by
  have heq : handleMdns mdnsNodes view (MdnsEv.discovered [(p, a)]) = view := by
    simp [handleMdns, addToView, h]
  exact ⟨heq, by rw [heq]⟩

/-- Witness for `discovered_known_peer_idempotent` at peer `5` already in
the view `[5, 9]`. -/
theorem discovered_known_peer_idempotent_witness :
    (5 : Nat) ∈ [5, 9] ∧ handleMdns [] [5, 9] (MdnsEv.discovered [(5, 7)]) = [5, 9] :=
  ⟨by decide, (discovered_known_peer_idempotent [] [5, 9] 5 7 (by decide)).1⟩

/-! ## Inbound floodsub messages (C6, C9) -/

/-- C6: an inbound floodsub `Message` whose payload fails to decode as a
`ChatMessage` is discarded: the handler prints nothing (and, being a pure
function of the event, mutates no state and surfaces no error). -/
theorem malformed_inbound_discarded (source : Nat) (seqno data : Bytes)
    (topics : List Bytes) (h : ChatMessage.decode data = none) :
    handleFloodsub (FloodsubEv.message source seqno data topics) = [] := by
  simp [handleFloodsub, h]

/-- Witness for `malformed_inbound_discarded` on the buffer `[10, 1, 255]`:
a well-framed field 1 whose single byte `0xff` is not UTF-8, so prost's
string re-validation fails and the program discards the message. -/
theorem malformed_inbound_discarded_witness :
    ChatMessage.decode [10, 1, 255] = none ∧
      handleFloodsub (FloodsubEv.message 0 [] [10, 1, 255] []) = [] :=
  ⟨by decide, malformed_inbound_discarded 0 [] [10, 1, 255] [] (by decide)⟩

/-- Counterexample to C9 as stated: for the inbound message decoding to
alias `"a"` and content `"b"`, the line printed is
`"<< a: b"` (`println!("<< {}", m)`), which differs from the bare
`Display` rendering `"a: b"` — something does precede the alias. -/
theorem inbound_line_marker_cex :
    handleFloodsub (FloodsubEv.message 0 [] (ChatMessage.encode ⟨[97], [98]⟩) []) =
      [[60, 60, 32] ++ ChatMessage.display ⟨[97], [98]⟩] ∧
    [60, 60, 32] ++ ChatMessage.display ⟨[97], [98]⟩ ≠ ChatMessage.display ⟨[97], [98]⟩ := by
  decide

/-- C9 (amended): an inbound floodsub message decoding to `m` prints the
single line `"<< "` followed by alias, colon, space, content; the `Display`
implementation itself renders exactly alias, colon, space, content with
nothing before or after. -/
theorem inbound_line_format (source : Nat) (seqno data : Bytes) (topics : List Bytes)
    (m : ChatMessage) (h : ChatMessage.decode data = some m) :
    handleFloodsub (FloodsubEv.message source seqno data topics) =
      [[60, 60, 32] ++ (m.from_ ++ [58, 32] ++ m.content)] ∧
    ChatMessage.display m = m.from_ ++ [58, 32] ++ m.content := by
  simp [handleFloodsub, h, ChatMessage.display]

/-- Witness for `inbound_line_format` on the encoded message
`{ from: "a", content: "b" }`. -/
theorem inbound_line_format_witness :
    ChatMessage.decode (ChatMessage.encode ⟨[97], [98]⟩) = some ⟨[97], [98]⟩ ∧
      handleFloodsub (FloodsubEv.message 0 [] (ChatMessage.encode ⟨[97], [98]⟩) []) =
        [[60, 60, 32] ++ ([97] ++ [58, 32] ++ [98])] :=
  ⟨by decide,
    (inbound_line_format 0 [] (ChatMessage.encode ⟨[97], [98]⟩) [] ⟨[97], [98]⟩ (by decide)).1⟩

/-! ## Event-loop lemmas -/

/-- `printsOf` distributes over trace concatenation. -/
lemma printsOf_append (t u : List Act) : printsOf (t ++ u) = printsOf t ++ printsOf u := by
  simp [printsOf, List.filter_append]

/-- A trace built from non-`printListening` steps has no listener prints. -/
lemma printsOf_map_eq_nil {α : Type} (l : List α) (g : α → Act)
    (h : ∀ x, (g x).isPrintListening = false) : printsOf (l.map g) = [] := by
  induction l with
  | nil => rfl
  | cons x xs ih =>
    simp only [List.map_cons, printsOf, List.filter_cons, h x]
    simpa [printsOf] using ih

/-- Publish steps are not listener prints. -/
lemma printsOf_pubs (ab : Bytes) (lines : List Bytes) :
    printsOf (lines.map fun l => Act.publish chatTopic ⟨ab, l⟩) = [] :=
  printsOf_map_eq_nil lines _ (fun _ => rfl)

/-- Event dispatches are not listener prints. -/
lemma printsOf_evs (evs : List Nat) :
    printsOf (evs.map Act.dispatchEvent) = [] :=
  printsOf_map_eq_nil evs _ (fun _ => rfl)

/-- Listener prints are kept verbatim by `printsOf`. -/
lemma printsOf_prints (addrs : List Nat) :
    printsOf (addrs.map Act.printListening) = addrs.map Act.printListening := by
  induction addrs with
  | nil => rfl
  | cons x xs ih =>
    simp only [List.map_cons, printsOf, List.filter_cons, Act.isPrintListening]
    simpa [printsOf] using ih

/-- Once the `listening` flag is set, an iteration prints no listener
address and the flag stays set. -/
lemma printsOf_tick_true (ab : Bytes) (inp : TickInput) :
    printsOf (tick ab inp true).1 = [] ∧ (tick ab inp true).2.2 = true := by
  cases hc : inp.stdinClosed <;> cases hd : inp.swarmDone <;>
    simp [tick, hc, hd, printsOf_append, printsOf_pubs, printsOf_evs]

/-- An iteration that prints some listener address ends with the flag set
and returns `Pending`. -/
lemma tick_flag_true_of_prints (ab : Bytes) (inp : TickInput) (b : Bool)
    (h : printsOf (tick ab inp b).1 ≠ []) :
    (tick ab inp b).2.2 = true ∧ (tick ab inp b).2.1 = Outcome.pending := by
  cases b with
  | true => exact absurd (printsOf_tick_true ab inp).1 h
  | false =>
    cases hc : inp.stdinClosed
    · cases hd : inp.swarmDone
      · by_cases hl : inp.listeners = []
        · exfalso
          apply h
          simp [tick, hc, hd, hl, printsOf_append, printsOf_pubs, printsOf_evs]
        · constructor
          · simp [tick, hc, hd, hl]
          · simp [tick, hc, hd]
      · exfalso
        apply h
        simp [tick, hc, hd, printsOf_append, printsOf_pubs, printsOf_evs]
    · exfalso
      apply h
      simp [tick, hc, printsOf_pubs]

/-- A run started with the flag already set never prints a listener
address. -/
lemma runLoop_true_no_prints (ab : Bytes) :
    ∀ (inps : List TickInput), ∀ tr ∈ runLoop ab inps true, printsOf tr = [] := by
  intro inps
  induction inps with
  | nil => intro tr h; simp [runLoop] at h
  | cons inp rest ih =>
    intro tr h
    obtain ⟨hpr, hfl⟩ := printsOf_tick_true ab inp
    rcases ht : tick ab inp true with ⟨tr0, out, fl⟩
    rw [ht] at hpr hfl
    simp only at hpr hfl
    rw [runLoop, ht] at h
    revert h
    cases out with
    | pending =>
      intro h
      subst hfl
      rcases List.mem_cons.mp h with h1 | h1
      · rw [h1]; exact hpr
      · exact ih tr h1
    | panicked =>
      intro h
      have h1 : tr = tr0 := by simpa using h
      rw [h1]; exact hpr
    | finished =>
      intro h
      have h1 : tr = tr0 := by simpa using h
      rw [h1]; exact hpr

/-- In any run, listener prints happen in at most one iteration: for any
two iterations of the run, one of them prints nothing. -/
lemma runLoop_prints_pairwise (ab : Bytes) :
    ∀ (inps : List TickInput) (b : Bool),
      (runLoop ab inps b).Pairwise fun t u => printsOf t = [] ∨ printsOf u = [] := by
  intro inps
  induction inps with
  | nil => intro b; simp [runLoop]
  | cons inp rest ih =>
    intro b
    rcases ht : tick ab inp b with ⟨tr0, out, fl⟩
    rw [runLoop, ht]
    cases out with
    | pending =>
      refine List.Pairwise.cons ?_ (ih fl)
      intro u hu
      by_cases hp : printsOf tr0 = []
      · exact Or.inl hp
      · right
        have hflag := tick_flag_true_of_prints ab inp b (by rw [ht]; exact hp)
        rw [ht] at hflag
        simp only at hflag
        rw [hflag.1] at hu
        exact runLoop_true_no_prints ab rest u hu
    | panicked => simp
    | finished => simp

/-- With the flag still unset, an iteration that reaches the `Pending`
branch prints exactly the currently ready listener addresses, in order. -/
lemma printsOf_tick_open (ab : Bytes) (inp : TickInput) :
    printsOf (tick ab { inp with stdinClosed := false, swarmDone := false } false).1 =
      inp.listeners.map Act.printListening := by
  by_cases hl : inp.listeners = [] <;>
    simp [tick, hl, printsOf_append, printsOf_pubs, printsOf_evs, printsOf_prints]

/-! ## Event-loop claims (C4, C5, C7, C8) -/

/-- C4: in every poll iteration, every stdin line that is ready at the
start of the iteration is published first: the trace is exactly the
publishes of those lines followed by a publish-free tail (the swarm-polling
loop only runs after the stdin loop has drained to `Pending`). -/
theorem stdin_drained_before_swarm (ab : Bytes) (inp : TickInput) (listening : Bool) :
    ∃ t, (tick ab inp listening).1 =
        (inp.stdinLines.map fun l => Act.publish chatTopic ⟨ab, l⟩) ++ t ∧
      (t.all fun a => !a.isPublish) = true := by
  cases hc : inp.stdinClosed
  · cases hd : inp.swarmDone
    · cases hl : listening
      · refine ⟨inp.swarmEvents.map Act.dispatchEvent ++
          inp.listeners.map Act.printListening, ?_, ?_⟩
        · simp [tick, hc, hd]
        · simp [List.all_eq_true, List.mem_map, Act.isPublish]
      · refine ⟨inp.swarmEvents.map Act.dispatchEvent, ?_, ?_⟩
        · simp [tick, hc, hd]
        · simp [List.all_eq_true, List.mem_map, Act.isPublish]
    · refine ⟨inp.swarmEvents.map Act.dispatchEvent, ?_, ?_⟩
      · simp [tick, hc, hd]
      · simp [List.all_eq_true, List.mem_map, Act.isPublish]
  · exact ⟨[], by simp [tick, hc], rfl⟩

/-- C5: when stdin reports end-of-stream, the iteration ends in
`panic!("Stdin closed")` whatever else is ready, and the loop is never
polled again — the remaining script is unreached, so no further network
traffic is relayed. -/
theorem stdin_close_terminates (ab : Bytes) (inp : TickInput) (listening : Bool)
    (rest : List TickInput) :
    (tick ab { inp with stdinClosed := true } listening).2.1 = Outcome.panicked ∧
    runLoop ab ({ inp with stdinClosed := true } :: rest) listening =
      [(tick ab { inp with stdinClosed := true } listening).1] := by
  have ht : tick ab { inp with stdinClosed := true } listening =
      (inp.stdinLines.map fun l => Act.publish chatTopic ⟨ab, l⟩, .panicked, listening) := by
    simp [tick]
  constructor
  · rw [ht]
  · rw [runLoop, ht]

/-- C7 (amended): across any run, listener addresses are printed in at most
one iteration (for any two iterations, one prints nothing); the iteration
that prints is the first `Pending` one with the flag still unset, and it
prints exactly the addresses ready at that moment; once the flag is set an
iteration prints no address, so no address is ever printed twice — but
addresses that become active in a later iteration are never printed. -/
theorem listener_printed_once (ab : Bytes) (inps : List TickInput) (inp : TickInput) :
    ((runLoop ab inps false).Pairwise fun t u => printsOf t = [] ∨ printsOf u = []) ∧
    printsOf (tick ab { inp with stdinClosed := false, swarmDone := false } false).1 =
      inp.listeners.map Act.printListening ∧
    printsOf (tick ab inp true).1 = [] :=
  ⟨runLoop_prints_pairwise ab inps false, printsOf_tick_open ab inp,
    (printsOf_tick_true ab inp).1⟩

/-- Counterexample to C7's final conjunct as stated: in a two-iteration run
where only address `1` is active at the first `Pending` and address `2`
becomes active by the second, the node listens on `2` but the whole run
never prints it — `listening` latched after the first batch. -/
theorem listener_late_address_cex :
    (2 : Nat) ∈ (TickInput.mk [] false [] false [1, 2]).listeners ∧
    Act.printListening 2 ∉
      (runLoop [] [⟨[], false, [], false, [1]⟩, ⟨[], false, [], false, [1, 2]⟩] false).flatten := by
  decide

/-- C8: the alias defaults to the UTF-8 bytes of `"anon"` when no first
argument is given and is the argument itself otherwise, and every message
published in any iteration carries exactly that alias in its `from` field
(with the ready lines as contents, in order). -/
theorem cli_alias_in_publishes (arg1 : Option Bytes) (s : Bytes) (inp : TickInput)
    (listening : Bool) :
    aliasOf none = [97, 110, 111, 110] ∧ aliasOf (some s) = s ∧
    publishedMsgs (tick (aliasOf arg1) inp listening).1 =
      inp.stdinLines.map fun l => { from_ := aliasOf arg1, content := l } := by
  refine ⟨rfl, rfl, ?_⟩
  have hpubs : publishedMsgs (inp.stdinLines.map fun l =>
      Act.publish chatTopic ⟨aliasOf arg1, l⟩) =
      inp.stdinLines.map fun l => { from_ := aliasOf arg1, content := l } := by
    induction inp.stdinLines with
    | nil => rfl
    | cons x xs ih => simp only [List.map_cons, publishedMsgs, List.filterMap_cons] at *; rw [ih]
  have hevs : publishedMsgs (inp.swarmEvents.map Act.dispatchEvent) = [] := by
    induction inp.swarmEvents with
    | nil => rfl
    | cons x xs ih => simp only [List.map_cons, publishedMsgs, List.filterMap_cons] at *; exact ih
  have hprints : publishedMsgs (inp.listeners.map Act.printListening) = [] := by
    induction inp.listeners with
    | nil => rfl
    | cons x xs ih => simp only [List.map_cons, publishedMsgs, List.filterMap_cons] at *; exact ih
  have happ : ∀ t u : List Act, publishedMsgs (t ++ u) = publishedMsgs t ++ publishedMsgs u := by
    intro t u; simp [publishedMsgs, List.filterMap_append]
  cases hc : inp.stdinClosed <;> cases hd : inp.swarmDone <;> cases hl : listening <;>
    simp [tick, hc, hd, hl, happ, hpubs, hevs, hprints]

/-! ## The publish-path encode never fails (C10) -/

/-- The wire encoding of a message takes at most 24 bytes of framing on top
of the two fields' bytes. -/
lemma encode_length_le (m : ChatMessage) :
    m.encode.length ≤ 24 + m.from_.length + m.content.length := by
  have hk1 : (varintEncode (1 * 8 + 2)).length = 1 := rfl
  have hk2 : (varintEncode (2 * 8 + 2)).length = 1 := rfl
  have hf := varintEncodeAux_length_le 10 m.from_.length
  have hc := varintEncodeAux_length_le 10 m.content.length
  rw [ChatMessage.encode]
  by_cases h1 : m.from_ = [] <;> by_cases h2 : m.content = [] <;>
    simp only [h1, h2, if_pos, if_neg, encodeField, List.length_append, List.length_nil,
      List.nil_append, List.append_nil, if_true, if_false, varintEncode] at * <;>
    omega

/-- C10: for every message whose two fields fit in memory together (their
byte lengths sum to at most `2 ^ 63`, a bound every pair of Rust `String`s
in one address space satisfies), prost's checked encode into a fresh
`Vec::new()` — which reports `usizeMax` bytes remaining — succeeds, so the
`expect("failed to encode msg")` panic branch in the publish path is
unreachable. -/
theorem publish_encode_never_panics (m : ChatMessage)
    (h : m.from_.length + m.content.length ≤ 2 ^ 63) :
    ChatMessage.encodeChecked m usizeMax = some m.encode := by
  have hb := encode_length_le m
  have h63 : (2 : Nat) ^ 63 = 9223372036854775808 := by norm_num
  have h64 : (2 : Nat) ^ 64 = 18446744073709551616 := by norm_num
  rw [ChatMessage.encodeChecked, if_neg]
  rw [usizeMax, h64]
  rw [h63] at h
  omega

/-- Witness for `publish_encode_never_panics` on the message
`{ from: "a", content: "b" }`. -/
theorem publish_encode_never_panics_witness :
    ([97] : Bytes).length + ([98] : Bytes).length ≤ 2 ^ 63 ∧
      ChatMessage.encodeChecked ⟨[97], [98]⟩ usizeMax = some (ChatMessage.encode ⟨[97], [98]⟩) :=
  ⟨by decide, publish_encode_never_panics ⟨[97], [98]⟩ (by decide)⟩
